import Mathlib

/-
Verification development for the windnf repository (a Windows DNF-like RPM
repository manager written in Python).  Each definition below is a shallow
embedding of a function or data shape of the source tree; the theorems at the
end of the file settle the specification claims against these embeddings.

Conventions used throughout:
  * Python strings are embedded as Lean `String` or `List Char`.
  * Python `None` becomes `Option.none`.
  * SQLite tables become lists of row structures; SQL statements become list
    operations that mirror the statement one-to-one.
  * Functions that raise in Python return `Except String`/`Option` here.
-/

namespace Windnf

/- ===================================================================
   Section 1: rpmvercmp  (src/src/windnf/nevra.py, lines 25-59)
   =================================================================== -/

/-- Helper for splitParts: the fuel argument is an upper bound on the number
of produced runs; the list length always suffices because every step consumes
at least the head character. -/
def splitPartsAux : Nat → List Char → List (List Char)
  | 0, _ => []
  | _ + 1, [] => []
  | n + 1, c :: cs =>
      (c :: cs.takeWhile (fun d => d.isDigit = c.isDigit))
        :: splitPartsAux n (cs.dropWhile (fun d => d.isDigit = c.isDigit))

/-- Embedding of `split_parts` in rpmvercmp: the regex
re.findall of digit runs or non-digit runs cuts the string into maximal runs
of digits and maximal runs of non-digit characters, in order. -/
def splitParts (s : List Char) : List (List Char) :=
  splitPartsAux s.length s

/-- Python `x.isdigit()` on one of the produced runs: non-empty and all
characters are digits. -/
def pyIsDigit (l : List Char) : Bool :=
  !l.isEmpty && l.all Char.isDigit

/-- Numeric value of a digit run, as Python `int(x)` computes it (leading
zeros are naturally stripped). -/
def toNatDigits (l : List Char) : Nat :=
  l.foldl (fun n c => n * 10 + (c.toNat - 48)) 0

/-- Python three-way comparison `(a > b) - (a < b)` on naturals. -/
def pyCmpNat (a b : Nat) : Int :=
  (if a > b then (1 : Int) else 0) - (if a < b then (1 : Int) else 0)

/-- Python string comparison `a < b`: lexicographic by code point. -/
def pyStrLt : List Char → List Char → Bool
  | [], [] => false
  | [], _ :: _ => true
  | _ :: _, [] => false
  | x :: xs, y :: ys => x < y || (x = y && pyStrLt xs ys)

/-- Python three-way comparison `(a > b) - (a < b)` on strings. -/
def pyCmpStr (a b : List Char) : Int :=
  (if pyStrLt b a then (1 : Int) else 0) - (if pyStrLt a b then (1 : Int) else 0)

/-- The token loop of rpmvercmp: walk the zipped token lists; numeric runs
compare as integers, all other pairs compare as Python strings; when the
zipped parts are exhausted the longer token list wins. -/
def cmpTokens : List (List Char) → List (List Char) → Int
  | xa :: pa, xb :: pb =>
      if pyIsDigit xa && pyIsDigit xb then
        if toNatDigits xa ≠ toNatDigits xb then pyCmpNat (toNatDigits xa) (toNatDigits xb)
        else cmpTokens pa pb
      else
        if xa ≠ xb then pyCmpStr xa xb
        else cmpTokens pa pb
  | pa, pb => pyCmpNat pa.length pb.length

/-- Embedding of `rpmvercmp(a, b)` from nevra.py: tokenize both strings into
digit and non-digit runs and compare token by token; negative means a < b,
zero equal, positive a > b.  Note the source deliberately implements only
this lightweight comparison (its docstring says it is not a perfect
reimplementation of rpm s algorithm); there is no special handling of the
tilde or caret characters. -/
def rpmvercmp (a b : String) : Int :=
  cmpTokens (splitParts a.data) (splitParts b.data)

example : rpmvercmp "1.0" "1.0" = 0 := by decide
example : rpmvercmp "1.0" "1.0.1" = -1 := by decide
example : rpmvercmp "1.10" "1.9" = 1 := by decide
example : rpmvercmp "1a" "1" = 1 := by decide
example : rpmvercmp "1.0^20230101" "1.0" = 1 := by decide

/- ===================================================================
   Section 2: NEVRA parse and render  (src/src/windnf/nevra.py)
   =================================================================== -/

/-- NEVRA value as produced by `NEVRA.parse`: the five identity fields.  The
parser always fills version, release and arch with non-empty strings, so only
the epoch is optional here.  The auxiliary metadata fields of the dataclass
(pkgId, repo_id, src) are not part of the parse result we track; src is
derived from arch. -/
structure Nevra where
  name : String
  epoch : Option String
  version : String
  release : String
  arch : String
deriving DecidableEq, Repr

/-- Character class `[A-Za-z0-9._+\-]` used by NEVRA_RE for the name, version
and release groups. -/
def nameChar (c : Char) : Bool :=
  c.isAlpha || c.isDigit || c = '.' || c = '_' || c = '+' || c = '-'

/-- Character class `[A-Za-z0-9_.+]` used by NEVRA_RE for the arch group. -/
def archChar (c : Char) : Bool :=
  c.isAlpha || c.isDigit || c = '_' || c = '.' || c = '+'

/-- First successful result of f over a list of candidates, mirroring the
backtracking order of the regex engine. -/
def firstSome {α β : Type} (f : α → Option β) : List α → Option β
  | [] => none
  | a :: as =>
      match f a with
      | some b => some b
      | none => firstSome f as

/-- All splits of a list, longest first part first; this is the candidate
order a greedy regex group explores. -/
def splitsDesc (l : List Char) : List (List Char × List Char) :=
  ((List.range (l.length + 1)).reverse).map (fun i => (l.take i, l.drop i))

/-- Match `release\.arch$` of NEVRA_RE: greedy release over the name
character class, then a literal dot, then a non-empty arch consuming the rest
of the string. -/
def matchRelArch (l : List Char) : Option (String × String) :=
  firstSome
    (fun s =>
      if !s.1.isEmpty && s.1.all nameChar then
        match s.2 with
        | '.' :: a => if !a.isEmpty && a.all archChar then some (⟨s.1⟩, ⟨a⟩) else none
        | _ => none
      else none)
    (splitsDesc l)

/-- Match `version-release\.arch$` of NEVRA_RE: greedy version, a literal
dash, then release and arch. -/
def matchVRA (l : List Char) : Option (String × String × String) :=
  firstSome
    (fun s =>
      if !s.1.isEmpty && s.1.all nameChar then
        match s.2 with
        | '-' :: r2 => (matchRelArch r2).map (fun ra => (String.mk s.1, ra.1, ra.2))
        | _ => none
      else none)
    (splitsDesc l)

/-- Match the part of NEVRA_RE that follows the name group:
`(?:-(?P<epoch>[0-9]+):)?` then a mandatory `-` then version-release.arch.
The optional epoch group is greedy, so the branch that consumes `-epoch:` is
tried first; note the regex as written requires another dash after the
closing colon of the epoch group. -/
def matchAfterName (l : List Char) : Option (Option String × String × String × String) :=
  let withEpoch : Option (Option String × String × String × String) :=
    match l with
    | '-' :: r =>
        let ds := r.takeWhile Char.isDigit
        let rest := r.dropWhile Char.isDigit
        if !ds.isEmpty then
          match rest with
          | ':' :: r2 =>
              match r2 with
              | '-' :: r3 => (matchVRA r3).map (fun vra => (some (String.mk ds), vra))
              | _ => none
          | _ => none
        else none
    | _ => none
  match withEpoch with
  | some res => some res
  | none =>
      match l with
      | '-' :: r => (matchVRA r).map (fun vra => (none, vra))
      | _ => none

/-- Python `s.strip()`: drop leading and trailing whitespace. -/
def pyStrip (l : List Char) : List Char :=
  ((l.dropWhile Char.isWhitespace).reverse.dropWhile Char.isWhitespace).reverse

/-- Embedding of `NEVRA.parse`: strip the input, then match NEVRA_RE with the
backtracking order of the Python regex engine (greedy name first); returns
none where the Python code raises ValueError. -/
def nevraParse (s : String) : Option Nevra :=
  let l := pyStrip s.data
  firstSome
    (fun sp =>
      if !sp.1.isEmpty && sp.1.all nameChar then
        (matchAfterName sp.2).map
          (fun evra => ⟨String.mk sp.1, evra.1, evra.2.1, evra.2.2.1, evra.2.2.2⟩)
      else none)
    (splitsDesc l)

/-- Embedding of `NEVRA.__str__` (and the identical to_nvra): render
`name-[epoch:]version-release.arch`, where the epoch prefix appears whenever
the epoch field is truthy, that is present and non-empty. -/
def nevraStr (n : Nevra) : String :=
  let e := match n.epoch with
    | some ep => if ep ≠ "" then ep ++ ":" else ""
    | none => ""
  n.name ++ "-" ++ e ++ n.version ++ "-" ++ n.release ++ "." ++ n.arch

/-- Concrete NEVRA value taken from the usage example in the docstring of the
NEVRA dataclass: bash with epoch 0. -/
def bashNevra : Nevra :=
  ⟨"bash", some "0", "5.1.12", "3.fc39", "x86_64"⟩

example : nevraStr bashNevra = "bash-0:5.1.12-3.fc39.x86_64" := by decide

example : nevraParse "bash-5.1.12-3.fc39.x86_64" =
    some ⟨"bash", none, "5.1.12", "3.fc39", "x86_64"⟩ := by decide

example : nevraParse "bash-0:5.1.12-3.fc39.x86_64" = none := by decide

/- ===================================================================
   Section 3: the unified store  (src/src/windnf/db_manager.py)
   =================================================================== -/

/-- Row of the packages table, restricted to the columns the code under
verification reads: the NEVRA fields, summary, the surrogate pkgKey and the
owning repository.  The epoch column holds integers in the ingested data
(metadata_manager parses it with int), hence Option Nat for a possibly NULL
integer column. -/
structure PkgRow where
  pkgKey : Nat
  name : String
  epoch : Option Nat
  version : String
  release : String
  arch : String
  summary : String
  repoId : Nat
deriving DecidableEq, Repr

/-- Row of the provides table: capability name and owning package key. -/
structure ProvRow where
  name : String
  pkgKey : Nat
deriving DecidableEq, Repr

/-- Row of the requires table: capability name and requiring package key. -/
structure ReqRow where
  name : String
  pkgKey : Nat
deriving DecidableEq, Repr

/-- Row of the repositories table. -/
structure RepoRow where
  id : Nat
  name : String
  baseUrl : String
  repomdUrl : String
  rtype : String
  sourceRepoId : Option Nat
  lastUpdated : Option String
deriving DecidableEq, Repr

/-- The unified store: the tables of the schema plus the next surrogate keys
the engine would hand out (SQLite rowid allocation). -/
structure Store where
  repos : List RepoRow
  nextRepoId : Nat
  packages : List PkgRow
  provides : List ProvRow
  requires : List ReqRow
  nextPkgKey : Nat
deriving DecidableEq, Repr

/-- Python `set.add` on a bucket modelled as a duplicate-free list: append
the key when absent. -/
def bucketAdd (s : List Nat) (k : Nat) : List Nat :=
  if k ∈ s then s else s ++ [k]

/-- One iteration of the provides_map loop:
`out.setdefault(r["name"], set()).add(r["pkgKey"])` over an association list
of buckets. -/
def providesMapAdd (m : List (String × List Nat)) (nm : String) (k : Nat) :
    List (String × List Nat) :=
  match m with
  | [] => [(nm, [k])]
  | (n, s) :: rest =>
      if n = nm then (n, bucketAdd s k) :: rest
      else (n, s) :: providesMapAdd rest nm k

/-- Embedding of `DbManager.provides_map` (db_manager.py lines 335-339): fold
the rows of the provides table into a mapping capability name to set of
package keys.  Only rows of the provides table contribute; nothing else is
added. -/
def providesMap (st : Store) : List (String × List Nat) :=
  st.provides.foldl (fun m r => providesMapAdd m r.name r.pkgKey) []

/-- Lookup in the produced mapping with the default of
`provides_map.get(req_name, set())`: the empty set when the capability is
absent. -/
def pmLookup : List (String × List Nat) → String → List Nat
  | [], _ => []
  | p :: rest, nm => if p.1 = nm then p.2 else pmLookup rest nm

/-- Embedding of `DbManager.requires_map` restricted to one key, that is
`requires_map.get(pkgKey, [])`: the rows of the requires table carrying this
package key, in table order. -/
def requiresLookup (st : Store) (k : Nat) : List ReqRow :=
  st.requires.filter (fun r => r.pkgKey = k)

/-- Embedding of `DbManager.get_by_key`: the first packages row with this
pkgKey, if any. -/
def getByKey (st : Store) (k : Nat) : Option PkgRow :=
  st.packages.find? (fun p => p.pkgKey = k)

/-- Argument tuple of `DbManager.add_repo`. -/
structure RepoArgs where
  name : String
  baseUrl : String
  repomdUrl : String
  rtype : String
  sourceRepoId : Option Nat
deriving DecidableEq, Repr

/-- The DO UPDATE arm of the upsert in add_repo: overwrite base_url,
repomd_url, type and source_repo_id of the first row whose unique name
matches; the id and last_updated columns are untouched. -/
def updateFirstRepo (l : List RepoRow) (a : RepoArgs) : List RepoRow :=
  match l with
  | [] => []
  | r :: rest =>
      if r.name = a.name then
        { r with baseUrl := a.baseUrl, repomdUrl := a.repomdUrl,
                 rtype := a.rtype, sourceRepoId := a.sourceRepoId } :: rest
      else r :: updateFirstRepo rest a

/-- Embedding of `DbManager.add_repo` (db_manager.py lines 66-89): validate
the repo type, run the INSERT ... ON CONFLICT(name) DO UPDATE upsert, then
SELECT the id of the row with that name.  The name column is unique, so the
conflict arm fires exactly when a row with the name already exists. -/
def addRepo (st : Store) (a : RepoArgs) : Except String (Store × Nat) :=
  if a.rtype = "binary" ∨ a.rtype = "source" then
    match st.repos.find? (fun r => r.name = a.name) with
    | some r0 => .ok ({ st with repos := updateFirstRepo st.repos a }, r0.id)
    | none =>
        let row : RepoRow :=
          ⟨st.nextRepoId, a.name, a.baseUrl, a.repomdUrl, a.rtype, a.sourceRepoId, none⟩
        .ok ({ st with repos := st.repos ++ [row], nextRepoId := st.nextRepoId + 1 },
             st.nextRepoId)
  else .error "rtype must be binary or source"

/- ===================================================================
   Section 4: package search  (db_manager.search_packages)
   =================================================================== -/

/-- Helper: does the haystack start with the needle, character for
character. -/
def startsWithChars : List Char → List Char → Bool
  | _, [] => true
  | [], _ :: _ => false
  | a :: as, b :: bs => a = b && startsWithChars as bs

/-- Helper: case-sensitive substring test used to embed the SQL
`LIKE '%pattern%'` filter (the patterns of interest carry no LIKE
metacharacters; the source does not escape them either). -/
def containsSub (hay pat : List Char) : Bool :=
  match hay with
  | [] => pat.isEmpty
  | _ :: t => startsWithChars hay pat || containsSub t pat

/-- Lowercase a character list, mirroring SQL LOWER on ASCII data. -/
def lowerChars (l : List Char) : List Char :=
  l.map Char.toLower

/-- The WHERE clause of search_packages when the pattern parsed as a NEVRA:
equality on name, version, release and arch, and on epoch only when the
parsed NEVRA carries one (the epoch column has integer affinity, so the
digit string compares numerically). -/
def rowMatchesNevra (nv : Nevra) (p : PkgRow) : Bool :=
  p.name = nv.name &&
  (match nv.epoch with
   | some e => match p.epoch with
     | some pe => pe = toNatDigits e.data
     | none => false
   | none => true) &&
  p.version = nv.version && p.release = nv.release && p.arch = nv.arch

/-- Embedding of `DbManager.search_packages` without a repo filter
(db_manager.py lines 351-400): try to parse the pattern as a NEVRA and
filter on its fields exactly; otherwise keep the rows whose name or summary
contains the pattern case-insensitively. -/
def searchPackages (st : Store) (pat : String) : List PkgRow :=
  match nevraParse pat with
  | some nv => st.packages.filter (rowMatchesNevra nv)
  | none =>
      let p := lowerChars pat.data
      st.packages.filter
        (fun row => containsSub (lowerChars row.name.data) p
          || containsSub (lowerChars row.summary.data) p)

/- ===================================================================
   Section 5: the dependency resolver
   (src/src/windnf/operations.py, Operations._resolve_dependencies,
    lines 270-331)
   =================================================================== -/

/-- The NEVRA-order `__lt__` chain of nevra.py applied to two package rows as
`NEVRA.from_row` builds them: name lexicographic, then numeric epoch with
missing treated as zero, then rpmvercmp on version and release, then arch
lexicographic. -/
def rowLt (a b : PkgRow) : Bool :=
  if a.name ≠ b.name then pyStrLt a.name.data b.name.data
  else if a.epoch.getD 0 ≠ b.epoch.getD 0 then decide (a.epoch.getD 0 < b.epoch.getD 0)
  else if rpmvercmp a.version b.version ≠ 0 then decide (rpmvercmp a.version b.version < 0)
  else if rpmvercmp a.release b.release ≠ 0 then decide (rpmvercmp a.release b.release < 0)
  else pyStrLt a.arch.data b.arch.data

/-- The NEVRA `__eq__` of nevra.py on rows: equality of the comparison tuple
(name, numeric epoch, version, release, arch). -/
def rowEqNevra (a b : PkgRow) : Bool :=
  a.name = b.name && a.epoch.getD 0 = b.epoch.getD 0 &&
  a.version = b.version && a.release = b.release && a.arch = b.arch

/-- The derived `__gt__` of the total_ordering decorator: greater means
neither less nor equal. -/
def rowGt (a b : PkgRow) : Bool :=
  !rowLt a b && !rowEqNevra a b

/-- Python `max(rows, key=NEVRA.from_row)`: left fold keeping the first
maximal element (max only replaces on strict greater-than). -/
def bestRow : List PkgRow → Option PkgRow
  | [] => none
  | h :: t => some (t.foldl (fun best r => if rowGt r best then r else best) h)

/-- Result triple of _resolve_dependencies: the set of resolved package
keys, the dependency map (per resolved key, the provider rows of its
requirements in processing order), and the set of unsatisfied capability
names. -/
structure ResolveResult where
  resolvedKeys : Finset Nat
  depMap : List (Nat × List PkgRow)
  unsatisfied : Finset String
deriving DecidableEq

/-- Body of the per-requirement loop (operations.py lines 310-322) over the
requirement list of one popped package: for each requirement, look up its
provider keys; when there are none record the capability as unsatisfied;
otherwise collect the provider rows found by get_by_key into the dependency
list, and (in recursive mode) collect the rows of providers not yet resolved
as stack pushes.  Returns (dependency rows, pushes, unsatisfied names). -/
def stepReqs (st : Store) (pm : List (String × List Nat)) (resolvedNow : Finset Nat)
    (recursive : Bool) : List ReqRow → List PkgRow × List PkgRow × Finset String
  | [] => ([], [], ∅)
  | r :: rs =>
      let rest := stepReqs st pm resolvedNow recursive rs
      let pks := pmLookup pm r.name
      if pks.isEmpty then (rest.1, rest.2.1, insert r.name rest.2.2)
      else
        let deps := pks.filterMap (fun k => getByKey st k)
        let pushes :=
          if recursive then
            pks.filterMap (fun k =>
              match getByKey st k with
              | some row => if k ∉ resolvedNow then some row else none
              | none => none)
          else []
        (deps ++ rest.1, pushes ++ rest.2.1, rest.2.2)

/-- Key universe used for the termination argument of the worklist loop: the
keys of the seed rows together with every key occurring in a provides row.
Every row ever pushed on the stack carries a key from this set. -/
def keyUniverse (st : Store) (seeds : List PkgRow) : Finset Nat :=
  (seeds.map PkgRow.pkgKey).toFinset ∪ (st.provides.map ProvRow.pkgKey).toFinset

/-- Membership in a bucket after a set.add. -/
theorem mem_bucketAdd (s : List Nat) (k k' : Nat) :
    k' ∈ bucketAdd s k ↔ k' = k ∨ k' ∈ s := by
  by_cases hk : k ∈ s
  · simp only [bucketAdd, if_pos hk]
    constructor
    · exact Or.inr
    · rintro (rfl | h)
      · exact hk
      · exact h
  · simp [bucketAdd, if_neg hk, or_comm]

/-- Membership in the provides map after adding one row. -/
theorem mem_pmLookup_add (m : List (String × List Nat)) (nm : String) (k : Nat)
    (nm' : String) (k' : Nat) :
    k' ∈ pmLookup (providesMapAdd m nm k) nm' ↔
      (nm' = nm ∧ k' = k) ∨ k' ∈ pmLookup m nm' := by
  induction m with
  | nil =>
      by_cases h : nm = nm'
      · subst h
        simp [providesMapAdd, pmLookup]
      · have h2 : ¬ nm' = nm := fun hc => h hc.symm
        simp [providesMapAdd, pmLookup, h, h2]
  | cons p rest ih =>
      obtain ⟨n, s⟩ := p
      by_cases hn : n = nm
      · subst hn
        by_cases h' : n = nm'
        · subst h'
          simp [providesMapAdd, pmLookup, mem_bucketAdd]
        · have h2 : ¬ nm' = n := fun hc => h' hc.symm
          simp [providesMapAdd, pmLookup, h', h2]
      · by_cases h' : n = nm'
        · subst h'
          simp [providesMapAdd, pmLookup, hn]
        · simp [providesMapAdd, pmLookup, hn, h', ih]

/-- Membership in the provides map built by folding rows over an
accumulator. -/
theorem pmLookup_foldl (rows : List ProvRow) (m : List (String × List Nat))
    (nm : String) (k : Nat) :
    k ∈ pmLookup (rows.foldl (fun acc r => providesMapAdd acc r.name r.pkgKey) m) nm ↔
      (∃ r ∈ rows, r.name = nm ∧ r.pkgKey = k) ∨ k ∈ pmLookup m nm := by
  induction rows generalizing m with
  | nil => simp
  | cons r rs ih =>
      rw [List.foldl_cons, ih, mem_pmLookup_add]
      constructor
      · rintro (⟨r', hr', h1, h2⟩ | ⟨h1, h2⟩ | h)
        · exact Or.inl ⟨r', List.mem_cons_of_mem _ hr', h1, h2⟩
        · exact Or.inl ⟨r, List.mem_cons_self _ _, h1.symm, h2.symm⟩
        · exact Or.inr h
      · rintro (⟨r', hr', h1, h2⟩ | h)
        · rcases List.mem_cons.mp hr' with rfl | hmem
          · exact Or.inr (Or.inl ⟨h1.symm, h2.symm⟩)
          · exact Or.inl ⟨r', hmem, h1, h2⟩
        · exact Or.inr (Or.inr h)

/-- Characterization of the provides map of a store: a key sits in the bucket
of a capability exactly when the provides table has such a row.  In
particular nothing is added beyond the rows of the provides table. -/
theorem mem_providesMap (st : Store) (nm : String) (k : Nat) :
    k ∈ pmLookup (providesMap st) nm ↔ ∃ r ∈ st.provides, r.name = nm ∧ r.pkgKey = k := by
  rw [providesMap, pmLookup_foldl]
  simp [pmLookup]

/-- A row found by get_by_key carries the key it was looked up with. -/
theorem getByKey_key {st : Store} {k : Nat} {row : PkgRow}
    (h : getByKey st k = some row) : row.pkgKey = k := by
  have := List.find?_some h
  exact of_decide_eq_true this

/-- Every push produced by the requirement loop comes from a provider key of
one of the requirements, via a successful get_by_key on a key that is not yet
resolved. -/
theorem stepReqs_pushes_spec (st : Store) (pm : List (String × List Nat))
    (resolvedNow : Finset Nat) (recursive : Bool) (reqs : List ReqRow) :
    ∀ p ∈ (stepReqs st pm resolvedNow recursive reqs).2.1,
      ∃ r ∈ reqs, ∃ k ∈ pmLookup pm r.name,
        getByKey st k = some p ∧ k ∉ resolvedNow := by
  induction reqs with
  | nil => simp [stepReqs]
  | cons r rs ih =>
      intro p hp
      rw [stepReqs] at hp
      by_cases he : (pmLookup pm r.name).isEmpty
      · rw [if_pos he] at hp
        obtain ⟨r', hr', hrest⟩ := ih p hp
        exact ⟨r', List.mem_cons_of_mem _ hr', hrest⟩
      · rw [if_neg he] at hp
        rcases List.mem_append.mp hp with hnew | hold
        · by_cases hrec : recursive
          · rw [if_pos hrec] at hnew
            obtain ⟨k, hk, hfk⟩ := List.mem_filterMap.mp hnew
            refine ⟨r, List.mem_cons_self _ _, k, hk, ?_⟩
            rcases hg : getByKey st k with _ | row <;> rw [hg] at hfk
            · simp at hfk
            · by_cases hres : k ∈ resolvedNow
              · simp [hres] at hfk
              · simp only [hres, not_false_iff, if_true, Option.some_inj] at hfk
                exact ⟨congrArg some hfk, hres⟩
          · rw [if_neg hrec] at hnew
            exact absurd hnew (by simp)
        · obtain ⟨r', hr', hrest⟩ := ih p hold
          exact ⟨r', List.mem_cons_of_mem _ hr', hrest⟩

/-- Worklist loop of _resolve_dependencies (operations.py lines 300-322), in
head-of-list form: the Python code pops from the end of its stack list and
appends pushes at the end, which is the same traversal as popping the head
here with the pushes reversed onto the front.  The two proof arguments carry
the termination invariant: every key a provider lookup can return lies in
the finite universe U, and so does the key of every row on the stack. -/
def resolveLoop (st : Store) (pm : List (String × List Nat)) (recursive : Bool)
    (U : Finset Nat) (hU : ∀ nm k, k ∈ pmLookup pm nm → k ∈ U) :
    (stack : List PkgRow) → (∀ p ∈ stack, p.pkgKey ∈ U) →
    (resolved : Finset Nat) → (depMap : List (Nat × List PkgRow)) →
    (unsat : Finset String) → ResolveResult
  | [], _, resolved, depMap, unsat => ⟨resolved, depMap, unsat⟩
  | pkg :: rest, hstack, resolved, depMap, unsat =>
      if hmem : pkg.pkgKey ∈ resolved then
        resolveLoop st pm recursive U hU rest
          (fun p hp => hstack p (List.mem_cons_of_mem _ hp)) resolved depMap unsat
      else
        resolveLoop st pm recursive U hU
          ((stepReqs st pm (insert pkg.pkgKey resolved) recursive
              (requiresLookup st pkg.pkgKey)).2.1.reverse ++ rest)
          (by
            intro p hp
            rcases List.mem_append.mp hp with hnew | hold
            · obtain ⟨r, _, k, hk, hg, _⟩ :=
                stepReqs_pushes_spec st pm (insert pkg.pkgKey resolved) recursive
                  (requiresLookup st pkg.pkgKey) p (List.mem_reverse.mp hnew)
              rw [getByKey_key hg]
              exact hU _ _ hk
            · exact hstack p (List.mem_cons_of_mem _ hold))
          (insert pkg.pkgKey resolved)
          (depMap ++ [(pkg.pkgKey, (stepReqs st pm (insert pkg.pkgKey resolved) recursive
              (requiresLookup st pkg.pkgKey)).1)])
          (unsat ∪ (stepReqs st pm (insert pkg.pkgKey resolved) recursive
              (requiresLookup st pkg.pkgKey)).2.2)
  termination_by stack _ resolved _ _ => ((U \ resolved).card, stack.length)
  decreasing_by
  · apply Prod.Lex.right
    simp
  · apply Prod.Lex.left
    apply Finset.card_lt_card
    constructor
    · intro x hx
      simp only [Finset.mem_sdiff, Finset.mem_insert] at *
      exact ⟨hx.1, fun hc => hx.2 (by simp [hc])⟩
    · intro hsub
      have hp : pkg.pkgKey ∈ U \ resolved :=
        Finset.mem_sdiff.mpr ⟨hstack pkg (List.mem_cons_self _ _), hmem⟩
      have := hsub hp
      simp at this

/-- Embedding of `Operations._resolve_dependencies` (operations.py lines
270-331), seed phase and loop: each pattern contributes at most one seed row
(the NEVRA-maximal row among its exact search results); the worklist is
initialized with the seed rows (popped from the end, hence the reverse in the
head-of-list encoding); weak-dependency and architecture arguments of the
source function are accepted but never used by its body, so they do not
appear here.  Returns the resolved key set, the dependency map and the
unsatisfied capability set. -/
def resolveDependencies (st : Store) (patterns : List String) (recursive : Bool) :
    ResolveResult :=
  let seeds := patterns.filterMap (fun pat => bestRow (searchPackages st pat))
  if seeds.isEmpty then ⟨∅, [], ∅⟩
  else
    resolveLoop st (providesMap st) recursive (keyUniverse st seeds)
      (by
        intro nm k hk
        obtain ⟨r, hr, _, hkey⟩ := (mem_providesMap st nm k).mp hk
        exact Finset.mem_union_right _
          (List.mem_toFinset.mpr (hkey ▸ List.mem_map_of_mem ProvRow.pkgKey hr)))
      seeds.reverse
      (by
        intro p hp
        exact Finset.mem_union_left _
          (List.mem_toFinset.mpr (List.mem_map_of_mem PkgRow.pkgKey (List.mem_reverse.mp hp))))
      ∅ [] ∅

/-- The dependency rows recorded for one package: per requirement with at
least one provider key, the provider rows found by get_by_key, in order.
This is what the requirement loop stores in dep_map for the popped package;
it does not depend on the resolved set or the recursive flag. -/
def depsOfReqs (st : Store) (pm : List (String × List Nat)) : List ReqRow → List PkgRow
  | [] => []
  | r :: rs =>
      (if (pmLookup pm r.name).isEmpty then []
       else (pmLookup pm r.name).filterMap (fun k => getByKey st k)) ++ depsOfReqs st pm rs

/-- The dependency component of the requirement loop is depsOfReqs. -/
theorem stepReqs_fst (st : Store) (pm : List (String × List Nat))
    (resolvedNow : Finset Nat) (recursive : Bool) (reqs : List ReqRow) :
    (stepReqs st pm resolvedNow recursive reqs).1 = depsOfReqs st pm reqs := by
  induction reqs with
  | nil => rfl
  | cons r rs ih =>
      rw [stepReqs, depsOfReqs]
      by_cases he : (pmLookup pm r.name).isEmpty <;> simp [he, ih]

/-- A requirement with no provider key gets its capability name into the
unsatisfied component of the requirement loop. -/
theorem stepReqs_unsat_mem (st : Store) (pm : List (String × List Nat))
    (resolvedNow : Finset Nat) (recursive : Bool) (reqs : List ReqRow)
    (r : ReqRow) (hr : r ∈ reqs) (he : (pmLookup pm r.name).isEmpty) :
    r.name ∈ (stepReqs st pm resolvedNow recursive reqs).2.2 := by
  induction reqs with
  | nil => cases hr
  | cons r0 rs ih =>
      rw [stepReqs]
      rcases List.mem_cons.mp hr with heq | hmem
      · subst heq
        simp [he]
      · by_cases he0 : (pmLookup pm r0.name).isEmpty
        · simp only [he0, if_true]
          exact Finset.mem_insert_of_mem (ih hmem)
        · simp only [he0, if_false]
          exact ih hmem

/-- In recursive mode, every not-yet-resolved provider row of every
requirement appears among the pushes of the requirement loop. -/
theorem stepReqs_pushes_complete (st : Store) (pm : List (String × List Nat))
    (resolvedNow : Finset Nat) (reqs : List ReqRow)
    (r : ReqRow) (hr : r ∈ reqs) (k : Nat) (hk : k ∈ pmLookup pm r.name)
    (row : PkgRow) (hg : getByKey st k = some row) (hres : k ∉ resolvedNow) :
    row ∈ (stepReqs st pm resolvedNow true reqs).2.1 := by
  induction reqs with
  | nil => cases hr
  | cons r0 rs ih =>
      rw [stepReqs]
      rcases List.mem_cons.mp hr with heq | hmem
      · subst heq
        have he : ¬ (pmLookup pm r.name).isEmpty = true := by
          cases hpm : pmLookup pm r.name
          · rw [hpm] at hk; cases hk
          · simp [hpm]
        simp only [he, if_false]
        apply List.mem_append.mpr
        left
        show row ∈ (pmLookup pm r.name).filterMap _
        exact List.mem_filterMap.mpr ⟨k, hk, by rw [hg]; simp [hres]⟩
      · by_cases he0 : (pmLookup pm r0.name).isEmpty
        · simp only [he0, if_true]
          exact ih hmem
        · simp only [he0, if_false]
          exact List.mem_append.mpr (Or.inr (ih hmem))

/-- Loop invariant of resolveLoop: the resolved set, dependency map and
unsatisfied set only grow; every row on the stack ends up resolved; and every
key resolved during the run has its dependency rows recorded, its
provider-less requirements recorded as unsatisfied, and (in recursive mode)
all its surviving providers resolved. -/
theorem resolveLoop_spec (st : Store) (pm : List (String × List Nat)) (recursive : Bool)
    (U : Finset Nat) (hU : ∀ nm k, k ∈ pmLookup pm nm → k ∈ U)
    (stack : List PkgRow) (hstack : ∀ p ∈ stack, p.pkgKey ∈ U)
    (resolved : Finset Nat) (depMap : List (Nat × List PkgRow)) (unsat : Finset String) :
    resolved ⊆ (resolveLoop st pm recursive U hU stack hstack resolved depMap unsat).resolvedKeys ∧
    unsat ⊆ (resolveLoop st pm recursive U hU stack hstack resolved depMap unsat).unsatisfied ∧
    (∀ e ∈ depMap, e ∈ (resolveLoop st pm recursive U hU stack hstack resolved depMap unsat).depMap) ∧
    (∀ p ∈ stack, p.pkgKey ∈ (resolveLoop st pm recursive U hU stack hstack resolved depMap unsat).resolvedKeys) ∧
    (∀ k, k ∈ (resolveLoop st pm recursive U hU stack hstack resolved depMap unsat).resolvedKeys →
      k ∉ resolved →
      (k, depsOfReqs st pm (requiresLookup st k)) ∈
        (resolveLoop st pm recursive U hU stack hstack resolved depMap unsat).depMap ∧
      (∀ req ∈ requiresLookup st k, (pmLookup pm req.name).isEmpty →
        req.name ∈ (resolveLoop st pm recursive U hU stack hstack resolved depMap unsat).unsatisfied) ∧
      (recursive = true → ∀ req ∈ requiresLookup st k, ∀ pk ∈ pmLookup pm req.name,
        (∃ row, getByKey st pk = some row) →
        pk ∈ (resolveLoop st pm recursive U hU stack hstack resolved depMap unsat).resolvedKeys)) := by
  induction stack, hstack, resolved, depMap, unsat using resolveLoop.induct st pm recursive U hU with
  | case1 x resolved depMap unsat hall =>
      rw [resolveLoop]
      refine ⟨Finset.Subset.refl _, Finset.Subset.refl _, fun e he => he, ?_, ?_⟩
      · intro p hp; cases hp
      · intro k hk hnk
        exact absurd hk hnk
  | case2 pkg rest hstack resolved depMap unsat hmem hall ih =>
      rw [resolveLoop]
      simp only [hmem, dite_true]
      obtain ⟨ha, hb, hc, hd, he⟩ := ih
      refine ⟨ha, hb, hc, ?_, he⟩
      intro p hp
      rcases List.mem_cons.mp hp with heq | hmem2
      · subst heq; exact ha hmem
      · exact hd p hmem2
  | case3 pkg rest hstack resolved depMap unsat hmem hall ih =>
      rw [resolveLoop]
      simp only [hmem, dite_false]
      obtain ⟨ha, hb, hc, hd, he⟩ := ih
      have hsub : resolved ⊆ insert pkg.pkgKey resolved := Finset.subset_insert _ _
      refine ⟨hsub.trans ha, ?_, ?_, ?_, ?_⟩
      · exact Finset.subset_union_left.trans hb
      · intro e hee
        exact hc e (List.mem_append.mpr (Or.inl hee))
      · intro p hp
        rcases List.mem_cons.mp hp with heq | hmem2
        · subst heq; exact ha (Finset.mem_insert_self _ _)
        · exact hd p (List.mem_append.mpr (Or.inr hmem2))
      · intro k hk hnk
        by_cases hkp : k = pkg.pkgKey
        · subst hkp
          refine ⟨?_, ?_, ?_⟩
          · apply hc
            rw [stepReqs_fst]
            exact List.mem_append.mpr (Or.inr (List.mem_singleton.mpr rfl))
          · intro req hreq hemp
            exact hb (Finset.mem_union_right _
              (stepReqs_unsat_mem _ _ _ _ _ _ hreq hemp))
          · rintro hrec req hreq pk hpk ⟨row, hrow⟩
            by_cases hin : pk ∈ insert pkg.pkgKey resolved
            · exact ha hin
            · subst hrec
              have hpush : row ∈ (stepReqs st pm (insert pkg.pkgKey resolved) true
                  (requiresLookup st pkg.pkgKey)).2.1 :=
                stepReqs_pushes_complete _ _ _ _ _ hreq _ hpk _ hrow hin
              have hkey :=
                hd row (List.mem_append.mpr (Or.inl (List.mem_reverse.mpr hpush)))
              rw [getByKey_key hrow] at hkey
              exact hkey
        · have hnk2 : k ∉ insert pkg.pkgKey resolved := by
            intro hc2
            rcases Finset.mem_insert.mp hc2 with h | h
            · exact hkp h
            · exact hnk h
          exact he k hk hnk2

/- ===================================================================
   Section 6: sync and import commit granularity
   (src/src/windnf/metadata_manager.py sync_repo, lines 45-105, and the
    store insert helpers of db_manager.py: every statement runs in its own
    `with self.conn` transaction, so each wipe and each insert commits on
    its own; there is no transaction spanning the whole sync.)
   =================================================================== -/

/-- One package of a downloaded snapshot as the import phase consumes it:
identity fields plus its provides and requires capability names. -/
structure ImportPkg where
  name : String
  epoch : Option Nat
  version : String
  release : String
  arch : String
  summary : String
  provides : List String
  requires : List String
deriving DecidableEq, Repr

/-- Embedding of `clear_repo_packages` (the wipe step of sync_repo): delete
the provides and requires rows of the packages of the target repo, then the
package rows themselves.  This statement block commits on its own. -/
def clearRepoPackages (st : Store) (rid : Nat) : Store :=
  { st with
    provides := st.provides.filter
      (fun pr => !(st.packages.any (fun p => p.repoId = rid && p.pkgKey = pr.pkgKey))),
    requires := st.requires.filter
      (fun rq => !(st.packages.any (fun p => p.repoId = rid && p.pkgKey = rq.pkgKey))),
    packages := st.packages.filter (fun p => !(p.repoId = rid)) }

/-- Insert one snapshot package and its relation rows under a fresh surrogate
key, as insert_package and insert_relations do; the insert commits on its
own. -/
def importOnePkg (rid : Nat) (st : Store) (ip : ImportPkg) : Store :=
  { st with
    packages := st.packages ++
      [⟨st.nextPkgKey, ip.name, ip.epoch, ip.version, ip.release, ip.arch, ip.summary, rid⟩],
    provides := st.provides ++ ip.provides.map (fun c => ⟨c, st.nextPkgKey⟩),
    requires := st.requires ++ ip.requires.map (fun c => ⟨c, st.nextPkgKey⟩),
    nextPkgKey := st.nextPkgKey + 1 }

/-- Import a list of snapshot packages one committed insert at a time. -/
def importCommitted (rid : Nat) : Store → List ImportPkg → Store
  | st, [] => st
  | st, ip :: ips => importCommitted rid (importOnePkg rid st ip) ips

/-- Store state visible after a sync of repo rid fails during the import
phase: the wipe has committed, the first n snapshot packages have committed,
and nothing is rolled back; last_updated is only stamped after a fully
successful import, so the repositories table is untouched. -/
def syncFailedState (st : Store) (rid : Nat) (items : List ImportPkg) (n : Nat) : Store :=
  importCommitted rid (clearRepoPackages st rid) (items.take n)

/-- Committed imports never touch the repositories table and only append
package rows with keys at or above the starting next key. -/
theorem importCommitted_spec (rid : Nat) (items : List ImportPkg) (st : Store) :
    (importCommitted rid st items).repos = st.repos ∧
    st.nextPkgKey ≤ (importCommitted rid st items).nextPkgKey ∧
    (∀ q ∈ (importCommitted rid st items).packages,
      q ∈ st.packages ∨ st.nextPkgKey ≤ q.pkgKey) ∧
    (∀ q ∈ st.packages, q ∈ (importCommitted rid st items).packages) := by
  induction items generalizing st with
  | nil =>
      exact ⟨rfl, Nat.le_refl _, fun q hq => Or.inl hq, fun q hq => hq⟩
  | cons ip ips ih =>
      obtain ⟨h1, h2, h3, h4⟩ := ih (importOnePkg rid st ip)
      refine ⟨h1, Nat.le_trans (Nat.le_succ _) h2, ?_, ?_⟩
      · intro q hq
        rcases h3 q hq with hmem | hge
        · rcases List.mem_append.mp hmem with hold | hnew
          · exact Or.inl hold
          · rcases List.mem_singleton.mp hnew with rfl
            exact Or.inr (Nat.le_refl _)
        · exact Or.inr (Nat.le_trans (Nat.le_succ _) hge)
      · intro q hq
        exact h4 q (List.mem_append.mpr (Or.inl hq))

/- ===================================================================
   Section 7: the winrpmdepscalc store variant
   (src/src/winrpmdepscalc/db_manager.py)
   =================================================================== -/

end Windnf

namespace Winrpmdepscalc

/-- Row of the winrpmdepscalc packages table (id INTEGER PRIMARY KEY,
repo_id, name and friends; only the columns the deletion claim touches are
carried). -/
structure Package where
  id : Nat
  repoId : Nat
  name : String
deriving DecidableEq, Repr

/-- Row of the winrpmdepscalc provides table. -/
structure ProvRow where
  packageId : Nat
  name : String
deriving DecidableEq, Repr

/-- Row of the winrpmdepscalc requires table. -/
structure ReqRow where
  packageId : Nat
  name : String
  isWeak : Bool
deriving DecidableEq, Repr

/-- Row of the winrpmdepscalc repositories table. -/
structure Repo where
  id : Nat
  name : String
  baseUrl : String
  repomdUrl : String
  lastUpdated : Option String
deriving DecidableEq, Repr

/-- The winrpmdepscalc database: its tables plus the connection-level flag
for foreign-key enforcement.  In SQLite, foreign-key actions such as the
ON DELETE CASCADE clauses declared in the schema only fire when the
connection has executed `PRAGMA foreign_keys = ON`; the default is off. -/
structure Db where
  foreignKeysOn : Bool
  repos : List Repo
  packages : List Package
  provides : List ProvRow
  requires : List ReqRow
deriving DecidableEq, Repr

/-- The pragmas `DbManager.__init__` executes (db_manager.py lines 14-17):
synchronous, journal_mode, cache_size and locking_mode.  No
`foreign_keys` pragma is among them. -/
def initPragmas : List String :=
  ["synchronous", "journal_mode", "cache_size", "locking_mode"]

/-- A database as `DbManager.__init__` opens it: empty tables and foreign-key
enforcement exactly when the executed pragmas include foreign_keys, which
they do not, leaving the SQLite default of off. -/
def newDb : Db :=
  { foreignKeysOn := initPragmas.contains "foreign_keys",
    repos := [], packages := [], provides := [], requires := [] }

/-- Embedding of `DbManager.delete_repository` (db_manager.py lines 76-78):
a single `DELETE FROM repositories WHERE id = ?`.  The declared
ON DELETE CASCADE actions of packages, provides and requires fire only when
the connection enforces foreign keys; otherwise only the repository row is
removed. -/
def deleteRepository (db : Db) (rid : Nat) : Db :=
  let repos := db.repos.filter (fun r => !(r.id = rid))
  if db.foreignKeysOn then
    let deadIds := db.packages.filterMap
      (fun p => if p.repoId = rid then some p.id else none)
    { db with
      repos := repos,
      packages := db.packages.filter (fun p => !(p.repoId = rid)),
      provides := db.provides.filter (fun pr => !(deadIds.contains pr.packageId)),
      requires := db.requires.filter (fun rq => !(deadIds.contains rq.packageId)) }
  else
    { db with repos := repos }

/-- Concrete database for the deletion claim: one repository holding one
package with one provides row and one requires row, in a store opened by the
constructor under verification. -/
def c6Db : Db :=
  { newDb with
    repos := [⟨1, "r1", "http://example/", "http://example/repodata/repomd.xml", none⟩],
    packages := [⟨1, 1, "pkga"⟩],
    provides := [⟨1, "pkga"⟩],
    requires := [⟨1, "libc", false⟩] }

end Winrpmdepscalc

namespace Windnf

/- ===================================================================
   Section 8: CLI exit codes  (src/src/windnf/cli.py, main, lines 242-260)
   =================================================================== -/

/-- Outcome of one CLI invocation as seen by the try block of main: normal
completion, a KeyboardInterrupt, a SystemExit carrying a code (argparse exits
with 2 on invalid arguments), or any other exception. -/
inductive PyOutcome where
  | ok
  | keyboardInterrupt
  | systemExit (code : Nat)
  | otherError (msg : String)
deriving DecidableEq, Repr

/-- Embedding of the exit behaviour of `main`: KeyboardInterrupt is caught
and turned into sys.exit(130); SystemExit is not an Exception subclass, so it
propagates (argparse thus exits 2 on invalid arguments); every other
exception is caught by the bare `except Exception`, logged, and swallowed,
after which main returns normally and the process exits 0. -/
def mainExitCode : PyOutcome → Nat
  | .ok => 0
  | .keyboardInterrupt => 130
  | .systemExit code => code
  | .otherError _ => 0

/-- Exit-code table written from the words of the specification, for
comparison with the embedded behaviour: 0 success, 1 general error, 2 invalid
arguments, 130 interrupted. -/
def specExitCode : PyOutcome → Nat
  | .ok => 0
  | .keyboardInterrupt => 130
  | .systemExit code => code
  | .otherError _ => 1

/- ===================================================================
   Section 9: download_to_memory
   (src/src/windnf/downloader.py, lines 212-243)
   =================================================================== -/

/-- The pieces of an HTTP response that download_to_memory inspects after
raise_for_status: the Content-Length header when present, and the body. -/
structure HttpResponse where
  contentLength : Option Nat
  body : List Nat
deriving DecidableEq, Repr

/-- Embedding of the size-ceiling logic of `Downloader.download_to_memory`:
content_len is `int(resp.headers.get("content-length", 0))`, so a missing
header counts as zero; the ValueError fires exactly when content_len exceeds
max_size_mb * 1024 * 1024, and otherwise the full body is returned. -/
def downloadToMemory (resp : HttpResponse) (maxSizeMb : Nat) : Except String (List Nat) :=
  let contentLen := resp.contentLength.getD 0
  if contentLen > maxSizeMb * 1024 * 1024 then
    .error "File too large for memory download"
  else
    .ok resp.body

end Windnf

namespace Windnf

/- ===================================================================
   Section 10: support lemmas for the claim theorems
   =================================================================== -/

/-- Every surviving provider row of a requirement appears in the dependency
rows recorded for the requiring package. -/
theorem mem_depsOfReqs (st : Store) (pm : List (String × List Nat)) (reqs : List ReqRow)
    (r : ReqRow) (hr : r ∈ reqs) (k : Nat) (hk : k ∈ pmLookup pm r.name)
    (row : PkgRow) (hg : getByKey st k = some row) :
    row ∈ depsOfReqs st pm reqs := by
  induction reqs with
  | nil => cases hr
  | cons r0 rs ih =>
      rw [depsOfReqs]
      rcases List.mem_cons.mp hr with heq | hmem
      · subst heq
        have he : ¬ (pmLookup pm r.name).isEmpty = true := by
          cases hpm : pmLookup pm r.name
          · rw [hpm] at hk; cases hk
          · simp [hpm]
        apply List.mem_append.mpr
        left
        simp only [he, if_false]
        exact List.mem_filterMap.mpr ⟨k, hk, hg⟩
      · exact List.mem_append.mpr (Or.inr (ih hmem))

/-- The update arm of the upsert keeps the list of repository names and ids
pointwise: only the other columns change. -/
theorem updateFirstRepo_names (l : List RepoRow) (a : RepoArgs) :
    (updateFirstRepo l a).map (fun r => (r.id, r.name)) = l.map (fun r => (r.id, r.name)) := by
  induction l with
  | nil => rfl
  | cons r rest ih =>
      rw [updateFirstRepo]
      by_cases h : r.name = a.name
      · simp [h]
      · simp [h, ih]

/-- Updating twice with the same arguments is the same as updating once. -/
theorem updateFirstRepo_idem (l : List RepoRow) (a : RepoArgs) :
    updateFirstRepo (updateFirstRepo l a) a = updateFirstRepo l a := by
  induction l with
  | nil => rfl
  | cons r rest ih =>
      rw [updateFirstRepo]
      by_cases h : r.name = a.name
      · simp only [h, if_true]
        rw [updateFirstRepo]
        simp [h]
      · simp only [h, if_false]
        rw [updateFirstRepo]
        simp [h, ih]

/-- The first row matching the unique name survives the update with its id,
now carrying the new column values. -/
theorem find_updateFirstRepo (l : List RepoRow) (a : RepoArgs) (r0 : RepoRow)
    (h : l.find? (fun r => r.name = a.name) = some r0) :
    (updateFirstRepo l a).find? (fun r => r.name = a.name) =
      some { r0 with baseUrl := a.baseUrl, repomdUrl := a.repomdUrl,
                     rtype := a.rtype, sourceRepoId := a.sourceRepoId } := by
  induction l with
  | nil => cases h
  | cons r rest ih =>
      rw [updateFirstRepo]
      by_cases hn : r.name = a.name
      · rw [List.find?_cons_of_pos _ (by simp [hn])] at h
        rcases Option.some_inj.mp h with rfl
        simp only [hn, if_true]
        exact List.find?_cons_of_pos _ (by simp [hn])
      · rw [List.find?_cons_of_neg _ (by simp [hn])] at h
        simp only [hn, if_false]
        rw [List.find?_cons_of_neg _ (by simp [hn])]
        exact ih h

/-- The update arm never touches rows before or after the first match when no
row matches at all. -/
theorem updateFirstRepo_no_match (l : List RepoRow) (a : RepoArgs)
    (h : ∀ r ∈ l, ¬ r.name = a.name) : updateFirstRepo l a = l := by
  induction l with
  | nil => rfl
  | cons r rest ih =>
      rw [updateFirstRepo]
      have hr := h r (List.mem_cons_self _ _)
      simp only [hr, if_false]
      rw [ih (fun q hq => h q (List.mem_cons_of_mem _ hq))]

end Windnf

namespace Windnf

/- ===================================================================
   Section 11: concrete stores for counterexamples and witnesses
   =================================================================== -/

/-- Resolver example package: the requester. -/
def pkgA : PkgRow := ⟨1, "pkga", none, "1", "1", "x86_64", "", 1⟩

/-- Resolver example package: first provider of cap. -/
def pkgB : PkgRow := ⟨2, "pkgb", none, "1", "1", "x86_64", "", 1⟩

/-- Resolver example package: second provider of cap. -/
def pkgC : PkgRow := ⟨3, "pkgc", none, "1", "1", "x86_64", "", 1⟩

/-- Store where package pkga has one requirement cap with two surviving
providers, pkgb and pkgc. -/
def twoProvStore : Store :=
  { repos := [], nextRepoId := 1,
    packages := [pkgA, pkgB, pkgC],
    provides := [⟨"cap", 2⟩, ⟨"cap", 3⟩],
    requires := [⟨"cap", 1⟩],
    nextPkgKey := 4 }

/-- Store where package alpha has a requirement nobody provides. -/
def missingCapStore : Store :=
  { repos := [], nextRepoId := 1,
    packages := [⟨1, "alpha", none, "1", "1", "x86_64", "", 1⟩],
    provides := [],
    requires := [⟨"missingcap", 1⟩],
    nextPkgKey := 2 }

/-- Store holding one synced repository with one package for the failed-sync
claim. -/
def c1Store : Store :=
  { repos := [⟨1, "r1", "http://example/", "repodata/repomd.xml", "binary", none,
      some "2024-01-01T00:00:00"⟩],
    nextRepoId := 2,
    packages := [⟨1, "oldpkg", none, "1", "1", "x86_64", "", 1⟩],
    provides := [⟨"oldpkg", 1⟩],
    requires := [],
    nextPkgKey := 2 }

/-- Store holding one package named blib that has no provides rows at all. -/
def c4Store : Store :=
  { repos := [], nextRepoId := 1,
    packages := [⟨1, "blib", none, "1", "1", "x86_64", "", 1⟩],
    provides := [],
    requires := [],
    nextPkgKey := 2 }

/-- Empty store for the repo-add claim. -/
def emptyStore : Store :=
  { repos := [], nextRepoId := 1, packages := [], provides := [], requires := [],
    nextPkgKey := 1 }

/-- Argument tuple for the repo-add claim. -/
def c7Args : RepoArgs :=
  ⟨"r1", "http://example/", "repodata/repomd.xml", "binary", none⟩

/-- The store emptyStore turns into when c7Args is added. -/
def c7AddedStore : Store :=
  { emptyStore with
    repos := [⟨1, "r1", "http://example/", "repodata/repomd.xml", "binary", none, none⟩],
    nextRepoId := 2 }

/- ===================================================================
   Section 12: the claim theorems
   =================================================================== -/

/-- Claim C1, counterexample: a sync of repo 1 that fails right after the
wipe committed (zero imported packages) leaves the store different from its
pre-sync state, against the claimed all-or-nothing transaction. -/
theorem c1_sync_rollback_counterexample :
    syncFailedState c1Store 1 [] 0 ≠ c1Store := by decide

/-- Claim C1, amended: the wipe and every insert of a sync commit separately,
so a failure during import keeps the wipe and the already-committed inserts.
The repositories table (hence last_updated) is unchanged, every pre-sync
package of the target repo is gone, and packages of other repos survive; the
hypothesis is the store invariant that live keys are below the next key. -/
theorem c1_sync_failure_keeps_wipe (st : Store) (rid : Nat) (items : List ImportPkg)
    (n : Nat) (hkeys : ∀ p ∈ st.packages, p.pkgKey < st.nextPkgKey) :
    (syncFailedState st rid items n).repos = st.repos ∧
    (∀ p ∈ st.packages, p.repoId = rid → p ∉ (syncFailedState st rid items n).packages) ∧
    (∀ p ∈ st.packages, p.repoId ≠ rid → p ∈ (syncFailedState st rid items n).packages) := by
  obtain ⟨h1, _, h3, h4⟩ := importCommitted_spec rid (items.take n) (clearRepoPackages st rid)
  refine ⟨h1, ?_, ?_⟩
  · intro p hp hrid hcontra
    rcases h3 p hcontra with hmem | hge
    · have := (List.mem_filter.mp hmem).2
      simp [hrid] at this
    · exact absurd hge (Nat.not_le_of_lt (hkeys p hp))
  · intro p hp hne
    exact h4 p (List.mem_filter.mpr ⟨hp, by simp [hne]⟩)

/-- Claim C1, witness for the amended statement at the concrete store. -/
theorem c1_sync_failure_keeps_wipe_witness :
    (∀ p ∈ c1Store.packages, p.pkgKey < c1Store.nextPkgKey) ∧
    (syncFailedState c1Store 1 [] 0).repos = c1Store.repos ∧
    (∀ p ∈ c1Store.packages, p.repoId = 1 →
      p ∉ (syncFailedState c1Store 1 [] 0).packages) :=
  ⟨by decide, (c1_sync_failure_keeps_wipe c1Store 1 [] 0 (by decide)).1,
    (c1_sync_failure_keeps_wipe c1Store 1 [] 0 (by decide)).2.1⟩

/-- Claim C3, counterexample: the version comparison does not order a tilde
token before everything; both boundary cases of the claim come out positive
instead of negative. -/
theorem c3_tilde_counterexample :
    ¬(rpmvercmp "1.0~rc1" "1.0" < 0 ∧ rpmvercmp "1~" "1" < 0) := by decide

/-- Claim C3, amended: rpmvercmp gives the tilde no special treatment; it is
an ordinary character of a non-digit run, so in both cited comparisons the
side with more tokens wins and the result is positive. -/
theorem c3_tilde_is_ordinary :
    rpmvercmp "1.0~rc1" "1.0" = 1 ∧ rpmvercmp "1~" "1" = 1 := by decide

/-- Claim C4, counterexample: the provides map is built from the provides
table alone, so a package whose provides rows do not list its own name is
absent from the bucket of its name; no implicit self-provides is added. -/
theorem c4_self_provides_counterexample :
    (⟨1, "blib", none, "1", "1", "x86_64", "", 1⟩ : PkgRow) ∈ c4Store.packages ∧
    1 ∉ pmLookup (providesMap c4Store) "blib" := by decide

/-- Claim C4, amended: provides_map contains a package key in the bucket of a
capability exactly when the provides table holds such a row; self-provides
appear only when the snapshot shipped an explicit provides row for the
package name. -/
theorem c4_provides_map_exactly_rows (st : Store) (nm : String) (k : Nat) :
    k ∈ pmLookup (providesMap st) nm ↔ ∃ r ∈ st.provides, r.name = nm ∧ r.pkgKey = k :=
  mem_providesMap st nm k

/-- Claim C5, theorem recording the code bug: rendering the docstring example
NEVRA (bash with epoch 0) and parsing it back fails, because NEVRA_RE demands
a dash between the epoch colon and the version, which the renderer never
emits; parse raises ValueError where the claim promises a round trip. -/
theorem c5_parse_render_epoch_fails :
    nevraStr bashNevra = "bash-0:5.1.12-3.fc39.x86_64" ∧
    nevraParse (nevraStr bashNevra) = none := by decide

/-- Claim C9, counterexample: an uncaught general error is swallowed by the
bare `except Exception` of main, which logs and returns, so the process exits
0, not the claimed 1. -/
theorem c9_general_error_exit_counterexample :
    mainExitCode (.otherError "boom") = 0 ∧ specExitCode (.otherError "boom") = 1 := by
  decide

/-- Claim C9, amended: exit codes are 0 on success, 130 on Ctrl-C, 2 on
invalid arguments (argparse raises SystemExit 2, which is not caught), and
also 0 on any other uncaught exception. -/
theorem c9_exit_codes :
    mainExitCode .ok = 0 ∧
    mainExitCode .keyboardInterrupt = 130 ∧
    mainExitCode (.systemExit 2) = 2 ∧
    (∀ msg, mainExitCode (.otherError msg) = 0) :=
  ⟨rfl, rfl, rfl, fun _ => rfl⟩

/-- Claim C10: download_to_memory raises its size ceiling error exactly when
the response advertises a Content-Length above max_size_mb mebibytes, and
with the header absent the advertised length counts as zero so the whole body
is returned. -/
theorem c10_download_to_memory_ceiling (resp : HttpResponse) (maxSizeMb : Nat) :
    ((∃ e, downloadToMemory resp maxSizeMb = .error e) ↔
      (∃ v, resp.contentLength = some v ∧ v > maxSizeMb * 1024 * 1024)) ∧
    (resp.contentLength = none → downloadToMemory resp maxSizeMb = .ok resp.body) := by
  rcases hcl : resp.contentLength with _ | v
  · refine ⟨?_, fun _ => ?_⟩
    · simp [downloadToMemory, hcl]
    · simp [downloadToMemory, hcl]
  · by_cases hgt : v > maxSizeMb * 1024 * 1024
    · refine ⟨?_, fun hnone => ?_⟩
      · simp [downloadToMemory, hcl, hgt]
      · cases hnone
    · refine ⟨?_, fun hnone => ?_⟩
      · simp only [downloadToMemory, hcl, Option.getD_some, if_neg hgt]
        constructor
        · rintro ⟨e, he⟩; cases he
        · rintro ⟨w, hw, hgtw⟩
          rcases Option.some_inj.mp hw with rfl
          exact absurd hgtw hgt
      · cases hnone

/-- Claim C10, witness: with the header absent the body comes back whole. -/
theorem c10_download_to_memory_ceiling_witness :
    (HttpResponse.mk none [7, 8, 9]).contentLength = none ∧
    downloadToMemory ⟨none, [7, 8, 9]⟩ 100 = .ok [7, 8, 9] :=
  ⟨rfl, (c10_download_to_memory_ceiling ⟨none, [7, 8, 9]⟩ 100).2 rfl⟩

end Windnf

/-- Claim C6, theorem recording the code bug: the winrpmdepscalc constructor
never executes `PRAGMA foreign_keys = ON`, so the ON DELETE CASCADE actions
declared in its own schema stay inert; deleting repository 1 removes the
repository row but leaves its package, provides and requires rows orphaned,
although the code logs that it deletes the repository with all its packages
and dependencies. -/
theorem Winrpmdepscalc.c6_delete_leaves_orphans :
    (Winrpmdepscalc.deleteRepository Winrpmdepscalc.c6Db 1).repos = [] ∧
    (Winrpmdepscalc.deleteRepository Winrpmdepscalc.c6Db 1).packages =
      Winrpmdepscalc.c6Db.packages ∧
    (Winrpmdepscalc.deleteRepository Winrpmdepscalc.c6Db 1).provides =
      Winrpmdepscalc.c6Db.provides ∧
    (Winrpmdepscalc.deleteRepository Winrpmdepscalc.c6Db 1).requires =
      Winrpmdepscalc.c6Db.requires := by decide

namespace Windnf

/-- The update arm preserves how many rows carry the upserted name. -/
theorem updateFirstRepo_count (l : List RepoRow) (a : RepoArgs) :
    ((updateFirstRepo l a).filter (fun r => r.name = a.name)).length =
      (l.filter (fun r => r.name = a.name)).length := by
  induction l with
  | nil => rfl
  | cons r rest ih =>
      rw [updateFirstRepo]
      by_cases h : r.name = a.name
      · simp [h, List.filter_cons]
      · simp [h, List.filter_cons, ih]

/-- Updating a concatenation whose first part holds no matching row only
rewrites the second part. -/
theorem updateFirstRepo_append (l1 l2 : List RepoRow) (a : RepoArgs)
    (h : ∀ r ∈ l1, ¬ r.name = a.name) :
    updateFirstRepo (l1 ++ l2) a = l1 ++ updateFirstRepo l2 a := by
  induction l1 with
  | nil => rfl
  | cons r rest ih =>
      rw [List.cons_append, updateFirstRepo]
      have hr := h r (List.mem_cons_self _ _)
      simp only [hr, if_false]
      rw [ih (fun q hq => h q (List.mem_cons_of_mem _ hq))]
      rfl

/-- A search over a concatenation whose first part has no match lands in the
second part. -/
theorem find_append_of_none {p : RepoRow → Bool} (l1 l2 : List RepoRow)
    (h : l1.find? p = none) : (l1 ++ l2).find? p = l2.find? p := by
  induction l1 with
  | nil => rfl
  | cons r rest ih =>
      rcases hp : p r with _ | _
      · rw [List.find?_cons_of_neg _ (by simp [hp])] at h
        rw [List.cons_append, List.find?_cons_of_neg _ (by simp [hp])]
        exact ih h
      · rw [List.find?_cons_of_pos _ hp] at h
        cases h

/-- Claim C7: add_repo is idempotent.  When the first call succeeds, running
it again with the same argument tuple returns the same store and the same
repository id (the second upsert fires its DO UPDATE arm on the unique name
and overwrites the row with identical values), and the number of rows
carrying the name never grows beyond one. -/
theorem c7_add_repo_idempotent (st : Store) (a : RepoArgs) (st1 : Store) (i1 : Nat)
    (h : addRepo st a = .ok (st1, i1)) :
    addRepo st1 a = .ok (st1, i1) ∧
    ((st.repos.filter (fun r => r.name = a.name)).length ≤ 1 →
      (st1.repos.filter (fun r => r.name = a.name)).length ≤ 1) := by
  rw [addRepo] at h
  by_cases hv : a.rtype = "binary" ∨ a.rtype = "source"
  · rw [if_pos hv] at h
    rcases hf : st.repos.find? (fun r => r.name = a.name) with _ | r0
    · rw [hf] at h
      simp only [Except.ok.injEq, Prod.mk.injEq] at h
      obtain ⟨hst1, hid⟩ := h
      subst hid
      subst hst1
      have hnomatch := List.find?_eq_none.mp hf
      have hnomatch2 : ∀ r ∈ st.repos, ¬ r.name = a.name :=
        fun r hr hc => hnomatch r hr (decide_eq_true hc)
      constructor
      · rw [addRepo, if_pos hv]
        show (match List.find? (fun r => decide (r.name = a.name))
            (st.repos ++ [⟨st.nextRepoId, a.name, a.baseUrl, a.repomdUrl, a.rtype,
              a.sourceRepoId, none⟩]) with
          | some r0 => _
          | none => _) = _
        rw [find_append_of_none _ _ hf, List.find?_cons_of_pos _ (by simp)]
        show Except.ok (_, _) = _
        have hupd : updateFirstRepo (st.repos ++ [(⟨st.nextRepoId, a.name, a.baseUrl,
            a.repomdUrl, a.rtype, a.sourceRepoId, none⟩ : RepoRow)]) a =
            st.repos ++ [⟨st.nextRepoId, a.name, a.baseUrl, a.repomdUrl, a.rtype,
              a.sourceRepoId, none⟩] := by
          rw [updateFirstRepo_append _ _ _ hnomatch2]
          simp [updateFirstRepo]
        rw [hupd]
      · intro _
        show ((st.repos ++ [(⟨st.nextRepoId, a.name, a.baseUrl, a.repomdUrl, a.rtype,
            a.sourceRepoId, none⟩ : RepoRow)]).filter (fun r => r.name = a.name)).length ≤ 1
        rw [List.filter_append,
          List.filter_eq_nil_iff.mpr (fun r hr => by simpa using hnomatch2 r hr)]
        simp
    · rw [hf] at h
      simp only [Except.ok.injEq, Prod.mk.injEq] at h
      obtain ⟨hst1, hid⟩ := h
      subst hid
      subst hst1
      constructor
      · rw [addRepo, if_pos hv]
        show (match List.find? (fun r => decide (r.name = a.name))
            (updateFirstRepo st.repos a) with
          | some r0 => _
          | none => _) = _
        rw [find_updateFirstRepo st.repos a r0 hf]
        show Except.ok (_, _) = _
        rw [updateFirstRepo_idem]
      · intro hle
        show ((updateFirstRepo st.repos a).filter (fun r => r.name = a.name)).length ≤ 1
        rw [updateFirstRepo_count]
        exact hle
  · rw [if_neg hv] at h
    cases h

/-- Claim C7, witness: adding the same repository twice to the empty store
returns the same id and leaves the one-row store unchanged. -/
theorem c7_add_repo_idempotent_witness :
    addRepo emptyStore c7Args = .ok (c7AddedStore, 1) ∧
    addRepo c7AddedStore c7Args = .ok (c7AddedStore, 1) := by
  have h : addRepo emptyStore c7Args = .ok (c7AddedStore, 1) := by rfl
  exact ⟨h, (c7_add_repo_idempotent emptyStore c7Args c7AddedStore 1 h).1⟩

end Windnf

namespace Windnf

/-- Claim C8: resolution never fails.  The resolver is a total function
returning the resolved key set together with the unsatisfied capability set,
and a requirement of any resolved package whose capability has no provider
does not abort the traversal: its name is recorded in the unsatisfied set
while every other package still appears in the resolved set. -/
theorem c8_resolver_never_fails (st : Store) (patterns : List String) (recursive : Bool)
    (k : Nat) (req : ReqRow)
    (hk : k ∈ (resolveDependencies st patterns recursive).resolvedKeys)
    (hreq : req ∈ requiresLookup st k)
    (hnone : pmLookup (providesMap st) req.name = []) :
    req.name ∈ (resolveDependencies st patterns recursive).unsatisfied := by
  rw [resolveDependencies] at hk ⊢
  rcases hb : (patterns.filterMap (fun pat => bestRow (searchPackages st pat))).isEmpty
    with _ | _
  · simp only [hb, Bool.false_eq_true, if_false] at hk ⊢
    exact ((resolveLoop_spec st (providesMap st) recursive _ _ _ _ ∅ [] ∅).2.2.2.2
      k hk (Finset.not_mem_empty k)).2.1 req hreq (by rw [hnone]; rfl)
  · simp only [hb, if_true] at hk
    exact absurd hk (Finset.not_mem_empty k)

/-- Claim C8, witness: in a store where package alpha (key 1) requires the
capability missingcap that nobody provides, recursive resolution still
resolves alpha and reports missingcap as unsatisfied. -/
theorem c8_resolver_never_fails_witness :
    1 ∈ (resolveDependencies missingCapStore ["alpha"] true).resolvedKeys ∧
    (⟨"missingcap", 1⟩ : ReqRow) ∈ requiresLookup missingCapStore 1 ∧
    pmLookup (providesMap missingCapStore) "missingcap" = [] ∧
    "missingcap" ∈ (resolveDependencies missingCapStore ["alpha"] true).unsatisfied := by
  have hk : 1 ∈ (resolveDependencies missingCapStore ["alpha"] true).resolvedKeys := by
    rw [resolveDependencies]
    simp only [show ["alpha"].filterMap
        (fun pat => bestRow (searchPackages missingCapStore pat)) =
        [⟨1, "alpha", none, "1", "1", "x86_64", "", 1⟩] from by decide]
    simp only [List.isEmpty_cons, Bool.false_eq_true, if_false]
    simp [resolveLoop.eq_def, stepReqs, pmLookup, getByKey, requiresLookup, providesMap,
      providesMapAdd, bucketAdd, missingCapStore]
  exact ⟨hk, by decide, by decide,
    c8_resolver_never_fails missingCapStore ["alpha"] true 1 ⟨"missingcap", 1⟩ hk
      (by decide) (by decide)⟩

/-- Claim C2, counterexample: in twoProvStore the single requirement cap of
package pkga has two surviving providers; the resolver enqueues and resolves
both of them and records both rows in the dependency list of pkga, against
the claimed single scoring winner per requirement. -/
theorem c2_single_provider_counterexample :
    2 ∈ (resolveDependencies twoProvStore ["pkga"] true).resolvedKeys ∧
    3 ∈ (resolveDependencies twoProvStore ["pkga"] true).resolvedKeys ∧
    (1, [pkgB, pkgC]) ∈ (resolveDependencies twoProvStore ["pkga"] true).depMap := by
  rw [resolveDependencies]
  simp only [show ["pkga"].filterMap
      (fun pat => bestRow (searchPackages twoProvStore pat)) = [pkgA] from by decide]
  simp only [List.isEmpty_cons, Bool.false_eq_true, if_false]
  simp only [List.reverse_cons, List.reverse_nil, List.nil_append]
  simp [resolveLoop.eq_def, stepReqs, pmLookup, getByKey, requiresLookup, providesMap,
    providesMapAdd, bucketAdd, pkgA, pkgB, pkgC, twoProvStore, Finset.mem_insert]

/-- Claim C2, amended: for every requirement of a resolved package, the
resolver does not pick a single scored winner; it records every surviving
provider row (each provider key of the capability whose get_by_key lookup
succeeds) in the dependency map of the requiring package, and in recursive
mode enqueues them all, so every such provider ends up in the resolved set. -/
theorem c2_resolver_takes_every_provider (st : Store) (patterns : List String)
    (k : Nat) (req : ReqRow) (pk : Nat) (row : PkgRow)
    (hk : k ∈ (resolveDependencies st patterns true).resolvedKeys)
    (hreq : req ∈ requiresLookup st k)
    (hpk : pk ∈ pmLookup (providesMap st) req.name)
    (hrow : getByKey st pk = some row) :
    (∃ deps, (k, deps) ∈ (resolveDependencies st patterns true).depMap ∧ row ∈ deps) ∧
    pk ∈ (resolveDependencies st patterns true).resolvedKeys := by
  rw [resolveDependencies] at hk ⊢
  rcases hb : (patterns.filterMap (fun pat => bestRow (searchPackages st pat))).isEmpty
    with _ | _
  · simp only [hb, Bool.false_eq_true, if_false] at hk ⊢
    have hmain := (resolveLoop_spec st (providesMap st) true _ _ _ _ ∅ [] ∅).2.2.2.2
      k hk (Finset.not_mem_empty k)
    refine ⟨⟨depsOfReqs st (providesMap st) (requiresLookup st k), hmain.1, ?_⟩, ?_⟩
    · exact mem_depsOfReqs st (providesMap st) _ req hreq pk hpk row hrow
    · exact hmain.2.2 rfl req hreq pk hpk ⟨row, hrow⟩
  · simp only [hb, if_true] at hk
    exact absurd hk (Finset.not_mem_empty k)

/-- Claim C2, witness for the amended statement: provider pkgb of the cap
requirement of pkga is recorded among the dependency rows and resolved. -/
theorem c2_resolver_takes_every_provider_witness :
    1 ∈ (resolveDependencies twoProvStore ["pkga"] true).resolvedKeys ∧
    (∃ deps, (1, deps) ∈ (resolveDependencies twoProvStore ["pkga"] true).depMap ∧
      pkgB ∈ deps) ∧
    2 ∈ (resolveDependencies twoProvStore ["pkga"] true).resolvedKeys := by
  have hk : 1 ∈ (resolveDependencies twoProvStore ["pkga"] true).resolvedKeys := by
    rw [resolveDependencies]
    simp only [show ["pkga"].filterMap
        (fun pat => bestRow (searchPackages twoProvStore pat)) = [pkgA] from by decide]
    simp only [List.isEmpty_cons, Bool.false_eq_true, if_false]
    simp [resolveLoop.eq_def, stepReqs, pmLookup, getByKey, requiresLookup, providesMap,
      providesMapAdd, bucketAdd, pkgA, pkgB, pkgC, twoProvStore, Finset.mem_insert]
  have hmain := c2_resolver_takes_every_provider twoProvStore ["pkga"] 1 ⟨"cap", 1⟩ 2 pkgB
    hk (by decide) (by decide) (by decide)
  exact ⟨hk, hmain.1, hmain.2⟩

end Windnf

/-- Claim C4, instance of the amended statement at a concrete store: key 2
sits in the cap bucket because of its explicit provides row. -/
theorem Windnf.c4_provides_map_exactly_rows_witness :
    2 ∈ Windnf.pmLookup (Windnf.providesMap Windnf.twoProvStore) "cap" :=
  (Windnf.c4_provides_map_exactly_rows Windnf.twoProvStore "cap" 2).mpr
    ⟨⟨"cap", 2⟩, by decide, rfl, rfl⟩
